import Mathlib

/-!
Verification of the gepace attribute-descriptor and batching engine
(`src/gepace/pace.py`) against its natural-language specification.

Protocol text is modelled as `List Char` (`Str`).  Python functions that can
raise become `Option`/`Except`-valued Lean functions.  Each definition below
is a direct translation of the Python function of the same name; line numbers
in the comments refer to `src/gepace/pace.py`.
-/

set_option autoImplicit false

namespace Gepace

/-- Protocol text: a Python `str` modelled as a list of characters. -/
abbrev Str := List Char

/-- Abbreviation turning a Lean string literal into the `Str` model. -/
def strL (s : String) : Str := s.toList

/-! ### Python string primitives used by the code -/

/-- The text after the first space, if any (the tail of
`text.split(" ", 1)`). -/
def afterFirstSpace : Str → Option Str
  | [] => none
  | c :: rest => if c = ' ' then some rest else afterFirstSpace rest

/-- `text.split(sep, 1)` when `sep` occurs: the parts before and after the
first occurrence of `sep`. -/
def breakAtFirst (sep : Char) : Str → Option (Str × Str)
  | [] => none
  | c :: rest =>
    if c = sep then some ([], rest)
    else (breakAtFirst sep rest).map (fun p => (c :: p.1, p.2))

/-- Whitespace recognised by Python `str.strip()` (the cases reachable in
this protocol). -/
def isSpaceChar (c : Char) : Bool := c = ' ' || c = '\t' || c = '\n' || c = '\r'

/-- Python `str.strip()`: drop leading and trailing whitespace. -/
def strip (t : Str) : Str :=
  ((t.dropWhile isSpaceChar).reverse.dropWhile isSpaceChar).reverse

/-- Python `text.split(sep)` (split at every occurrence, keeping empty
parts). -/
def splitChar (sep : Char) : Str → List Str
  | [] => [[]]
  | c :: rest =>
    if c = sep then [] :: splitChar sep rest
    else
      match splitChar sep rest with
      | [] => [[c]]
      | s :: ss => (c :: s) :: ss

/-- Python `sep.join(parts)`. -/
def joinChar (sep : Char) (parts : List Str) : Str := List.intercalate [sep] parts

/-- Python `str.upper()`. -/
def upperStr (t : Str) : Str := t.map Char.toUpper

/-! ### A model of Python `str(int)` and `int(str)` -/

/-- Decimal digits of `n`, least significant first; `fuel` bounds the
recursion (structurally, so the kernel can evaluate it). -/
def digitsRevFuel : Nat → Nat → List Nat
  | 0, _ => []
  | fuel + 1, n => if n = 0 then [] else n % 10 :: digitsRevFuel fuel (n / 10)

/-- The character for a decimal digit. -/
def digitChar (d : Nat) : Char := Char.ofNat (48 + d)

/-- Model of Python `str(n)` for a non-negative integer. -/
def pyStrNat (n : Nat) : Str :=
  if n = 0 then ['0'] else ((digitsRevFuel n n).map digitChar).reverse

/-- Model of Python `str(i)` for an integer. -/
def pyStrInt : Int → Str
  | Int.ofNat n => pyStrNat n
  | Int.negSucc m => '-' :: pyStrNat (m + 1)

/-- Is `c` a decimal digit? -/
def isDig (c : Char) : Bool := 48 ≤ c.toNat && c.toNat ≤ 57

/-- Numeric value of a most-significant-first digit string. -/
def digitsVal (ds : Str) : Nat :=
  ds.foldl (fun a c => 10 * a + (c.toNat - 48)) 0

/-- Numeric value of a least-significant-first digit list (proof helper for
the decimal round trip). -/
def valLSB : List Nat → Nat
  | [] => 0
  | d :: ds => d + 10 * valLSB ds

/-- Parse an unsigned run of decimal digits; `none` on empty or non-digit
input (Python `int()` raises `ValueError` there). -/
def parseDigits (ds : Str) : Option Nat :=
  if ds.isEmpty then none
  else if ds.all isDig then some (digitsVal ds) else none

/-- Model of Python `int(text)`: strip whitespace, optional sign, digits
(`none` models the `ValueError` on malformed input, including the empty
string). -/
def pyInt (t : Str) : Option Int :=
  let s := strip t
  if s.head? = some '-' then (parseDigits s.tail).map (fun n => -(n : Int))
  else if s.head? = some '+' then (parseDigits s.tail).map (fun n => (n : Int))
  else (parseDigits s).map (fun n => (n : Int))

/-! ### Codec set (pace.py lines 14-63) -/

/-- `to_nop` (line 18): strip the echoed command mnemonic from the answer,
`text.split(" ", 1)[-1]`. -/
def to_nop (t : Str) : Str := (afterFirstSpace t).getD t

/-- `from_bool` (line 43): encode a boolean as "1"/"0". -/
def from_bool (b : Bool) : Str := if b then ['1'] else ['0']

/-- `to_bool` (line 39): `bool(int(to_nop(text)))`. -/
def to_bool (t : Str) : Option Bool := (pyInt (to_nop t)).map (fun n => n != 0)

/-- `to_int` (line 51): `int(to_nop(text))`. -/
def to_int (t : Str) : Option Int := pyInt (to_nop t)

/-- `to_error` (line 34): split the fragment into an integer code and the
trailing message, `code, text = to_nop(text).split(",", 1)`. -/
def to_error (t : Str) : Option (Int × Str) :=
  match breakAtFirst ',' (to_nop t) with
  | some (code, msg) => (pyInt code).map (fun n => (n, msg))
  | none => none

/-- `RateMode` (lines 195-204). -/
inductive RateMode
  | Maximum
  | Linear
deriving DecidableEq

/-- The `enum.Enum` wire values of `RateMode`. -/
def RateMode.text : RateMode → Str
  | .Maximum => strL "MAX"
  | .Linear => strL "LIN"

/-- `RateMode.encode` (line 203): `self.value`. -/
def RateMode.encode (m : RateMode) : Str := m.text

/-- Enum value lookup `RateMode(text)`; `none` models the `ValueError` for an
unknown value. -/
def RateMode.ofText (t : Str) : Option RateMode :=
  if t = strL "MAX" then some .Maximum
  else if t = strL "LIN" then some .Linear
  else none

/-- `RateMode.decode` (line 200): `cls(to_nop(text))`. -/
def RateMode.decode (t : Str) : Option RateMode := RateMode.ofText (to_nop t)

/-! ### Decoded values

The Python decode functions are heterogeneous; the engine stores them in one
list, so the Lean model gives them the common result type `Option Value`
(`none` models a decode exception). -/

/-- A typed value decoded from a reply fragment. -/
inductive Value
  | vstr (s : Str)
  | vint (n : Int)
  | vbool (b : Bool)
  | verr (code : Int) (msg : Str)
  | vrate (m : RateMode)
deriving DecidableEq

/-- `to_nop` as an engine decode step. -/
def to_nopV (t : Str) : Option Value := some (.vstr (to_nop t))

/-- `to_bool` as an engine decode step. -/
def to_boolV (t : Str) : Option Value := (to_bool t).map .vbool

/-- `to_int` as an engine decode step. -/
def to_intV (t : Str) : Option Value := (to_int t).map .vint

/-- `to_error` as an engine decode step. -/
def to_errorV (t : Str) : Option Value := (to_error t).map (fun p => .verr p.1 p.2)

/-! ### Attribute descriptor and request builder
(`member`, pace.py lines 138-184) -/

/-- The `\x7bmodule\x7d` placeholder of a command template, as characters. -/
def moduleToken : Str :=
  [Char.ofNat 123, 'm', 'o', 'd', 'u', 'l', 'e', Char.ofNat 125]

/-- Substitute the module placeholder (fuel-bounded so the kernel can
evaluate it; `formatModule` supplies enough fuel). -/
def formatModuleFuel (objId : Str) : Nat → Str → Str
  | _, [] => []
  | 0, l => l
  | fuel + 1, c :: rest =>
    if (c :: rest).take 8 = moduleToken
    then objId ++ formatModuleFuel objId fuel ((c :: rest).drop 8)
    else c :: formatModuleFuel objId fuel rest

/-- `cmd.format(module=obj_id)` (line 146): substitute the module
placeholder by the module identifier. -/
def formatModule (objId : Str) (cmd : Str) : Str :=
  formatModuleFuel objId cmd.length cmd

/-- Template construction of `member(prefix, name)` (lines 140-142). -/
def memberCmd (pre name : Str) : Str :=
  let cmd := if name.isEmpty then pre else pre ++ ':' :: name
  if cmd.head? = some '*' || cmd.head? = some ':' then cmd else ':' :: cmd

/-- Failures of the engine.  `notReadable`/`notWritable` model the
`ValueError("... is not readable"/"... is not writable")` raises (lines
150, 154); `decodeFail` models an exception escaping a decode function. -/
inductive PErr
  | notReadable (request : Str)
  | notWritable (request : Str)
  | decodeFail
deriving DecidableEq

/-- `command` (lines 144-161): render the request text for an optional value
and pair it with the decode step to apply to the eventual reply.  `objId`
is `str(getattr(obj, "id", None))`; `fget`/`fset` are the descriptor's
decode/encode functions. -/
def command {β : Type} (cmd : Str) (fget : Option (Str → Option Value))
    (fset : Option (β → Str)) (objId : Str) (value : Option β) :
    Except PErr (Str × (Str → Option Value)) :=
  let request := upperStr (formatModule objId cmd)
  match value with
  | none =>
    match fget with
    | none => .error (.notReadable request)
    | some getter =>
      .ok (if request.getLast? = some '?' then request else request ++ ['?'], getter)
  | some v =>
    match fset with
    | none => .error (.notWritable request)
    | some enc =>
      let set_command := request ++ ' ' :: enc v
      match fget with
      | none => .ok (set_command ++ ';' :: strL ":SYST:ERR" ++ ['?'], to_errorV)
      | some getter => .ok (set_command ++ ';' :: request ++ ['?'], getter)

/-! ### Batch (`Pace.Group`, pace.py lines 295-327) -/

/-- A batch accumulator: command lines under construction and the pending
decode functions, in append order. -/
structure Group (α : Type) where
  cmds : List Str
  funcs : List (Str → α)

/-- `Group.__init__` (lines 297-300): `self.cmds = [""]; self.funcs = []`. -/
def Group.start (α : Type) : Group α := ⟨[[]], []⟩

/-- `Group.append` (lines 302-312).  If the current last line plus the new
request text passes 128 characters, a fresh line is started holding only the
request; otherwise the request is joined onto the last line with `";"` (or
placed as-is when the line is empty).  The decode function is always
appended. -/
def Group.append {α : Type} (g : Group α) (cmd : Str) (func : Str → α) : Group α :=
  let last := (g.cmds.getLast?).getD []
  if 128 < last.length + cmd.length then
    ⟨g.cmds ++ [cmd], g.funcs ++ [func]⟩
  else
    ⟨g.cmds.dropLast ++ [if last.isEmpty then cmd else last ++ ';' :: cmd],
     g.funcs ++ [func]⟩

/-- `Group._store` (lines 314-318): join all line replies with `";"`, split
on `";"`, strip each fragment, and zip the pending decode functions over the
fragments. -/
def Group.store {α : Type} (g : Group α) (replies : List Str) : List α :=
  List.zipWith (fun f t => f t) g.funcs
    ((splitChar ';' (joinChar ';' replies)).map strip)

/-- The batch built by appending a sequence of (request text, decode
function) pairs to a fresh group. -/
def buildGroup {α : Type} (pairs : List (Str × (Str → α))) : Group α :=
  pairs.foldl (fun g p => g.append p.1 p.2) (Group.start α)

/-! ### Execution engine (`Pace`, pace.py lines 329-399) -/

/-- The mutable state of a `Pace` device: the open batch (if any), the result
cache (Python dict modelled as an association list, newest binding first),
and a counter of transport operations (for round-trip accounting). -/
structure Pace where
  group : Option (Group (Option Value))
  cache : List (Str × Option Value)
  calls : Nat

/-- `Pace._ask` (lines 382-386): append the newline, use write-and-read for
queries (`"?" in cmd`) and bare write otherwise, and strip the reply.  The
transport is `conn : Str → Option Str` (its `write_readline`); a bare write
yields no reply.  Every call is one transport operation. -/
def pace_ask (conn : Str → Option Str) (st : Pace) (cmd : Str) :
    Option Str × Pace :=
  let raw := cmd ++ ['\n']
  let reply := if cmd.contains '?' then conn raw else none
  (reply.map strip, { st with calls := st.calls + 1 })

/-- `Pace._query` (lines 388-399): with no open batch, issue the request and
decode the reply; with an open batch, only append the pair to it and return
no value. -/
def pace_query (conn : Str → Option Str) (st : Pace) (cmd : Str)
    (func : Str → Option Value) : Except PErr (Option Value × Pace) :=
  match st.group with
  | some g => .ok (none, { st with group := some (g.append cmd func) })
  | none =>
    let (reply, st1) := pace_ask conn st cmd
    match reply with
    | some r =>
      match func r with
      | some v => .ok (some v, st1)
      | none => .error .decodeFail
    | none => .error .decodeFail

/-- `get_set` (lines 163-179): the descriptor call.  A cacheable read first
consults the cache keyed by the request text (a stored `None` counts as a
miss, as in Python); otherwise the request runs through `_query`, and the
result is stored in the cache for reads and for cacheable writes. -/
def get_set {β : Type} (cmd : Str) (fget : Option (Str → Option Value))
    (fset : Option (β → Str)) (cacheFlag : Bool) (objId : Str)
    (conn : Str → Option Str) (st : Pace) (value : Option β) :
    Except PErr (Option Value × Pace) :=
  match command cmd fget fset objId value with
  | .error e => .error e
  | .ok (request, getter) =>
    let is_get := value.isNone
    let hit : Option Value :=
      match (if is_get && cacheFlag then List.lookup request st.cache else none) with
      | some (some v) => some v
      | _ => none
    match hit with
    | some v => .ok (some v, st)
    | none =>
      match pace_query conn st request getter with
      | .error e => .error e
      | .ok (result, st1) =>
        let st2 :=
          if is_get || cacheFlag
          then { st1 with cache := (request, result) :: st1.cache }
          else st1
        .ok (result, st2)

/-- `Pace.__enter__` (lines 342-344): install a fresh batch as the open group
and return it.  There is no check for an already-open batch. -/
def pace_enter (st : Pace) : Pace × Group (Option Value) :=
  let g := Group.start (Option Value)
  ({ st with group := some g }, g)

/-- The `NACK` sentinel (line 7). -/
def nackText : Str := strL "NACK"

/-- Reply fragments a batch demultiplexes: join the line replies with `";"`,
split on `";"` (stripping is applied later, inside `store`). -/
def fragmentsOf (replies : List Str) : List Str :=
  splitChar ';' (joinChar ';' replies)

/-! Concrete scenario material used by counterexamples and witnesses. -/

/-- A 64-character request text. -/
def req64A : Str := List.replicate 64 'A'

/-- Another 64-character request text. -/
def req64B : Str := List.replicate 64 'B'

/-- Transport stub for the cache scenario: the plain read of `:FOO` answers
`":FOO old"`, the combined write-and-confirm answers `"9;:FOO 9"`. -/
def cacheConn : Str → Option Str := fun raw =>
  if raw = strL ":FOO?\n" then some (strL ":FOO old")
  else if raw = strL ":FOO 9;:FOO?\n" then some (strL "9;:FOO 9")
  else none

/-- Identity encoder (`from_nop`, line 23). -/
def from_nop : Str → Str := fun s => s

/-- Initial device state: no open batch, empty cache, no transport calls. -/
def paceInit : Pace := ⟨none, [], 0⟩

/-- The state component of an engine step (initial state on failure). -/
def paceOf (e : Except PErr (Option Value × Pace)) : Pace :=
  match e with
  | .ok p => p.2
  | .error _ => paceInit

/-- The value component of an engine step (`none` on failure). -/
def valOf (e : Except PErr (Option Value × Pace)) : Option (Option Value) :=
  match e with
  | .ok p => some p.1
  | .error _ => none

/-- Cache scenario, step 1: a cacheable read of `:FOO`. -/
def cacheRun1 : Except PErr (Option Value × Pace) :=
  get_set (strL ":FOO") (some to_nopV) (some from_nop) true (strL "1")
    cacheConn paceInit none

/-- Cache scenario, step 2: a write of `"9"` to `:FOO`. -/
def cacheRun2 : Except PErr (Option Value × Pace) :=
  get_set (strL ":FOO") (some to_nopV) (some from_nop) true (strL "1")
    cacheConn (paceOf cacheRun1) (some (strL "9"))

/-- Cache scenario, step 3: a second cacheable read of `:FOO`. -/
def cacheRun3 : Except PErr (Option Value × Pace) :=
  get_set (strL ":FOO") (some to_nopV) (some from_nop) true (strL "1")
    cacheConn (paceOf cacheRun2) none

/-- Device state with a warm cache entry for the read request `:FOO?`. -/
def warmPace : Pace :=
  ⟨none, [(strL ":FOO?", some (.vstr (strL "old")))], 7⟩

/-- Device state with an open batch holding one pending request. -/
def busyPace : Pace :=
  ⟨some (Group.append (Group.start (Option Value)) (strL "*IDN?") to_nopV), [], 0⟩

/-- Device state with an open empty batch and a warm cache entry for
`*IDN?`. -/
def warmBatchPace : Pace :=
  ⟨some (Group.start (Option Value)), [(strL "*IDN?", some (.vstr (strL "X")))], 3⟩

end Gepace

namespace Gepace

/-! ## Helper lemmas -/

theorem Group.append_funcs {α : Type} (g : Group α) (cmd : Str) (func : Str → α) :
    (g.append cmd func).funcs = g.funcs ++ [func] := by
  simp only [Group.append]
  split <;> rfl

theorem Group.append_cmds_ne_nil {α : Type} (g : Group α) (cmd : Str) (func : Str → α) :
    (g.append cmd func).cmds ≠ [] := by
  simp only [Group.append]
  split <;> simp

theorem buildGroup_foldl_funcs {α : Type} (pairs : List (Str × (Str → α))) :
    ∀ g : Group α,
      (pairs.foldl (fun g p => g.append p.1 p.2) g).funcs
        = g.funcs ++ pairs.map Prod.snd := by
  induction pairs with
  | nil => intro g; simp
  | cons p rest ih =>
    intro g
    simp only [List.foldl_cons, List.map_cons, ih, Group.append_funcs,
      List.append_assoc, List.cons_append, List.nil_append]

theorem buildGroup_funcs {α : Type} (pairs : List (Str × (Str → α))) :
    (buildGroup pairs).funcs = pairs.map Prod.snd := by
  simpa [buildGroup, Group.start] using
    buildGroup_foldl_funcs pairs (Group.start α)

/-- One `append` step either keeps a line of the old batch, produces a line
of at most 129 characters, or starts a line holding exactly the new request
text. -/
theorem Group.append_line_cases {α : Type} (g : Group α) (cmd : Str)
    (func : Str → α) (l : Str) (hl : l ∈ (g.append cmd func).cmds) :
    l ∈ g.cmds ∨ l.length ≤ 129 ∨ l = cmd := by
  simp only [Group.append] at hl
  split at hl
  · rcases List.mem_append.mp hl with h | h
    · exact Or.inl h
    · right; right; simpa using h
  · next hlen =>
    rcases List.mem_append.mp hl with h | h
    · exact Or.inl ((g.cmds.dropLast_sublist).subset h)
    · simp only [List.mem_singleton] at h
      subst h
      right; left
      split
      · omega
      · simp only [List.length_append, List.length_cons]
        omega

theorem buildGroup_foldl_line_cases {α : Type} (pairs : List (Str × (Str → α))) :
    ∀ (g : Group α) (l : Str),
      l ∈ (pairs.foldl (fun g p => g.append p.1 p.2) g).cmds →
      l ∈ g.cmds ∨ l.length ≤ 129 ∨ l ∈ pairs.map Prod.fst := by
  induction pairs with
  | nil => intro g l hl; exact Or.inl hl
  | cons p rest ih =>
    intro g l hl
    rcases ih (g.append p.1 p.2) l hl with h | h | h
    · rcases Group.append_line_cases g p.1 p.2 l h with h' | h' | h'
      · exact Or.inl h'
      · exact Or.inr (Or.inl h')
      · subst h'
        right; right
        rw [List.map_cons]
        exact List.mem_cons_self _ _
    · exact Or.inr (Or.inl h)
    · right; right
      rw [List.map_cons]
      exact List.mem_cons_of_mem _ h

theorem length_store {α : Type} (g : Group α) (replies : List Str) :
    (g.store replies).length
      = min g.funcs.length ((fragmentsOf replies).map strip).length := by
  simp [Group.store, fragmentsOf, List.length_zipWith]

/-! ## C1 -/

/-- C1: for every sequence of appended requests, the batch collects exactly
one decode function per request, in append order, regardless of the line
splitting; and when the combined reply splits into as many fragments as
requests, `_store` yields exactly one decoded result per request, the i-th
decode function applied to the i-th whitespace-stripped fragment. -/
theorem batch_demultiplex {α : Type} (pairs : List (Str × (Str → α)))
    (replies : List Str)
    (h : (fragmentsOf replies).length = pairs.length) :
    (buildGroup pairs).funcs = pairs.map Prod.snd
      ∧ (buildGroup pairs).store replies
          = List.zipWith (fun p t => p.2 (strip t)) pairs (fragmentsOf replies)
      ∧ ((buildGroup pairs).store replies).length = pairs.length := by
  refine ⟨buildGroup_funcs pairs, ?_, ?_⟩
  · simp only [Group.store, buildGroup_funcs, fragmentsOf,
      List.zipWith_map_left, List.zipWith_map_right]
  · rw [length_store, buildGroup_funcs]
    simp [h]

/-- Witness for C1: three requests batched across two lines, replies
`"10.0;20.0"` and `"30.0"`, decoded in order. -/
theorem batch_demultiplex_witness :
    (fragmentsOf [strL "10.0;20.0", strL "30.0"]).length
        = ([(strL ":A?", to_nopV), (strL ":B?", to_nopV), (strL ":C?", to_nopV)]).length
      ∧ ((buildGroup [(strL ":A?", to_nopV), (strL ":B?", to_nopV), (strL ":C?", to_nopV)]).store
            [strL "10.0;20.0", strL "30.0"]).length
          = ([(strL ":A?", to_nopV), (strL ":B?", to_nopV), (strL ":C?", to_nopV)]).length :=
  ⟨by decide,
    (batch_demultiplex
      [(strL ":A?", to_nopV), (strL ":B?", to_nopV), (strL ":C?", to_nopV)]
      [strL "10.0;20.0", strL "30.0"] (by decide)).2.2⟩

/-! ## C2 -/

set_option maxRecDepth 40000

/-- Counterexample to C2: `append` tests `len(buffer) + len(text) > 128`
without counting the joining `";"`, so two 64-character requests (neither
exceeding the 128-character ceiling) are joined into a single line of 129
characters. -/
theorem batch_line_ceiling_counterexample :
    (buildGroup [(req64A, to_nopV), (req64B, to_nopV)]).cmds
        = [req64A ++ ';' :: req64B]
      ∧ (req64A ++ ';' :: req64B).length = 129
      ∧ req64A.length ≤ 128 ∧ req64B.length ≤ 128 := by
  refine ⟨?_, by decide, by decide, by decide⟩
  decide

/-- C2 as amended: because the `";"` separator is not counted by the length
test, a joined line can reach 129 characters; every batch line is at most
129 characters long except those holding a single over-long request, which
is placed alone on its own line unsplit (so any longer line is literally one
of the appended request texts). -/
theorem batch_line_ceiling (pairs : List (Str × (Str → Option Value)))
    (l : Str) (hl : l ∈ (buildGroup pairs).cmds) :
    l.length ≤ 129 ∨ (128 < l.length ∧ l ∈ pairs.map Prod.fst) := by
  rcases buildGroup_foldl_line_cases pairs (Group.start (Option Value)) l hl
    with h | h | h
  · left
    simp only [Group.start, List.mem_singleton] at h
    subst h
    simp
  · exact Or.inl h
  · by_cases hlen : l.length ≤ 129
    · exact Or.inl hlen
    · exact Or.inr ⟨by omega, h⟩

/-- Witness for C2 as amended, at a singleton batch. -/
theorem batch_line_ceiling_witness :
    strL ":A?" ∈ (buildGroup [(strL ":A?", to_nopV)]).cmds
      ∧ ((strL ":A?").length ≤ 129
          ∨ (128 < (strL ":A?").length
              ∧ strL ":A?" ∈ ([(strL ":A?", to_nopV)]).map Prod.fst)) :=
  ⟨by decide, batch_line_ceiling [(strL ":A?", to_nopV)] (strL ":A?") (by decide)⟩

/-! ## C3 -/

/-- Counterexample to C3: two pending decode functions but a single reply
fragment do not fail — `zip` silently truncates and one partial result is
returned. -/
theorem batch_mismatch_counterexample :
    (buildGroup [(strL ":A?", to_nopV), (strL ":B?", to_nopV)]).funcs.length = 2
      ∧ (fragmentsOf [strL "10.0"]).length = 1
      ∧ (buildGroup [(strL ":A?", to_nopV), (strL ":B?", to_nopV)]).store [strL "10.0"]
          = [some (.vstr (strL "10.0"))] := by
  refine ⟨?_, by decide, by decide⟩
  rw [buildGroup_funcs]
  decide

/-- C3 as amended: a fragment-count mismatch is silently truncated, never an
error — `_store` zips the pending decode functions with the fragments and
always returns `min`(#functions, #fragments) results (partial results on a
short reply, dropped fragments on a long one); no `BatchReplyMismatchError`
exists in the code. -/
theorem batch_mismatch_truncates {α : Type} (pairs : List (Str × (Str → α)))
    (replies : List Str) :
    ((buildGroup pairs).store replies).length
      = min pairs.length (fragmentsOf replies).length := by
  rw [length_store, buildGroup_funcs]
  simp [fragmentsOf]

/-! ## Decimal round trip helpers -/

theorem digitsRevFuel_mem_lt (fuel : Nat) :
    ∀ (n d : Nat), d ∈ digitsRevFuel fuel n → d < 10 := by
  induction fuel with
  | zero => intro n d h; simp [digitsRevFuel] at h
  | succ fuel ih =>
    intro n d h
    simp only [digitsRevFuel] at h
    split at h
    · simp at h
    · rcases List.mem_cons.mp h with h' | h'
      · subst h'; exact Nat.mod_lt _ (by omega)
      · exact ih _ _ h'

theorem valLSB_digitsRevFuel (fuel : Nat) :
    ∀ n : Nat, n ≤ fuel → valLSB (digitsRevFuel fuel n) = n := by
  induction fuel with
  | zero => intro n h; interval_cases n; simp [digitsRevFuel, valLSB]
  | succ fuel ih =>
    intro n h
    simp only [digitsRevFuel]
    split
    · next h0 => simp [h0, valLSB]
    · next h0 =>
      have hdiv : n / 10 ≤ fuel := by omega
      simp only [valLSB, ih (n / 10) hdiv]
      omega

theorem foldl_reverse_valLSB (l : List Nat) :
    ∀ a : Nat,
      List.foldl (fun a d => 10 * a + d) a l.reverse
        = a * 10 ^ l.length + valLSB l := by
  induction l with
  | nil => intro a; simp [valLSB]
  | cons d ds ih =>
    intro a
    simp only [List.reverse_cons, List.foldl_append, ih, List.foldl_cons,
      List.foldl_nil, valLSB, List.length_cons]
    ring

theorem digitChar_toNat {d : Nat} (h : d < 10) :
    (digitChar d).toNat - 48 = d := by
  interval_cases d <;> decide

theorem digitChar_isDig {d : Nat} (h : d < 10) : isDig (digitChar d) = true := by
  interval_cases d <;> decide

theorem isDig_not_space {c : Char} (h : isDig c = true) :
    isSpaceChar c = false := by
  simp only [isDig, Bool.and_eq_true, decide_eq_true_eq] at h
  simp only [isSpaceChar, Bool.or_eq_false_iff, decide_eq_false_iff_not]
  refine ⟨⟨⟨?_, ?_⟩, ?_⟩, ?_⟩ <;> rintro rfl <;> simp_all

theorem isDig_ne_space {c : Char} (h : isDig c = true) : c ≠ ' ' := by
  rintro rfl; simp_all [isDig]

theorem isDig_ne_minus {c : Char} (h : isDig c = true) : c ≠ '-' := by
  rintro rfl; simp_all [isDig]

theorem isDig_ne_plus {c : Char} (h : isDig c = true) : c ≠ '+' := by
  rintro rfl; simp_all [isDig]

theorem isDig_ne_comma {c : Char} (h : isDig c = true) : c ≠ ',' := by
  rintro rfl; simp_all [isDig]

theorem mem_pyStrNat_isDig (n : Nat) : ∀ c ∈ pyStrNat n, isDig c = true := by
  intro c hc
  by_cases h0 : n = 0
  · subst h0
    have h00 : pyStrNat 0 = ['0'] := by decide
    rw [h00, List.mem_singleton] at hc
    subst hc; decide
  · simp only [pyStrNat, if_neg h0, List.mem_reverse, List.mem_map] at hc
    obtain ⟨d, hd, rfl⟩ := hc
    exact digitChar_isDig (digitsRevFuel_mem_lt n n d hd)

theorem pyStrNat_ne_nil (n : Nat) : pyStrNat n ≠ [] := by
  by_cases h0 : n = 0
  · subst h0; decide
  · simp only [pyStrNat, if_neg h0]
    obtain ⟨m, rfl⟩ := Nat.exists_eq_succ_of_ne_zero h0
    simp [digitsRevFuel]

theorem digitsVal_pyStrNat (n : Nat) : digitsVal (pyStrNat n) = n := by
  by_cases h0 : n = 0
  · subst h0; decide
  · simp only [pyStrNat, if_neg h0, digitsVal, ← List.map_reverse,
      List.foldl_map]
    have hext :
        List.foldl (fun (a : Nat) (d : Nat) => 10 * a + ((digitChar d).toNat - 48)) 0
            (digitsRevFuel n n).reverse
          = List.foldl (fun (a : Nat) (d : Nat) => 10 * a + d) 0
            (digitsRevFuel n n).reverse := by
      refine List.foldl_ext _ _ _ ?_
      intro a d hd
      rw [digitChar_toNat
        (digitsRevFuel_mem_lt n n d (List.mem_reverse.mp hd))]
    rw [hext, foldl_reverse_valLSB, valLSB_digitsRevFuel n n le_rfl]
    simp

theorem parseDigits_pyStrNat (n : Nat) : parseDigits (pyStrNat n) = some n := by
  simp only [parseDigits]
  rw [if_neg, if_pos, digitsVal_pyStrNat]
  · exact List.all_eq_true.mpr (mem_pyStrNat_isDig n)
  · simp only [Bool.not_eq_true, List.isEmpty_eq_false]
    exact pyStrNat_ne_nil n

theorem dropWhile_eq_self_of_all {α : Type} (p : α → Bool) (l : List α)
    (h : ∀ c ∈ l, p c = false) : l.dropWhile p = l := by
  cases l with
  | nil => rfl
  | cons c rest =>
    rw [List.dropWhile_cons, if_neg]
    simp [h c (List.mem_cons_self c rest)]

theorem strip_eq_self (l : Str) (h : ∀ c ∈ l, isSpaceChar c = false) :
    strip l = l := by
  simp only [strip]
  rw [dropWhile_eq_self_of_all _ _ h,
    dropWhile_eq_self_of_all _ _ (fun c hc => h c (List.mem_reverse.mp hc)),
    List.reverse_reverse]

theorem strip_pyStrInt (i : Int) : strip (pyStrInt i) = pyStrInt i := by
  refine strip_eq_self _ ?_
  intro c hc
  cases i with
  | ofNat n => exact isDig_not_space (mem_pyStrNat_isDig n c hc)
  | negSucc m =>
    simp only [pyStrInt, List.mem_cons] at hc
    rcases hc with rfl | hc
    · decide
    · exact isDig_not_space (mem_pyStrNat_isDig (m + 1) c hc)

theorem pyInt_pyStrInt (i : Int) : pyInt (pyStrInt i) = some i := by
  have hstrip := strip_pyStrInt i
  cases i with
  | ofNat n =>
    simp only [pyStrInt] at hstrip
    obtain ⟨c, rest, hform⟩ := List.exists_cons_of_ne_nil (pyStrNat_ne_nil n)
    have hdig : isDig c = true := by
      refine mem_pyStrNat_isDig n c ?_
      rw [hform]; exact List.mem_cons_self _ _
    rw [hform] at hstrip
    simp only [pyInt, pyStrInt, hform, hstrip, List.head?_cons]
    rw [if_neg, if_neg, ← hform, parseDigits_pyStrNat]
    · rfl
    · intro h; exact isDig_ne_plus hdig (Option.some.inj h)
    · intro h; exact isDig_ne_minus hdig (Option.some.inj h)
  | negSucc m =>
    simp only [pyStrInt] at hstrip
    simp only [pyInt, pyStrInt, hstrip, List.head?_cons, List.tail_cons,
      if_true]
    rw [parseDigits_pyStrNat]
    simp [Int.negSucc_eq]

theorem afterFirstSpace_eq_none (l : Str) (h : ∀ c ∈ l, c ≠ ' ') :
    afterFirstSpace l = none := by
  induction l with
  | nil => rfl
  | cons c rest ih =>
    simp only [afterFirstSpace]
    rw [if_neg (h c (List.mem_cons_self c rest))]
    exact ih (fun d hd => h d (List.mem_cons_of_mem c hd))

theorem to_nop_pyStrInt (i : Int) : to_nop (pyStrInt i) = pyStrInt i := by
  have h : ∀ c ∈ pyStrInt i, c ≠ ' ' := by
    intro c hc
    cases i with
    | ofNat n => exact isDig_ne_space (mem_pyStrNat_isDig n c hc)
    | negSucc m =>
      simp only [pyStrInt, List.mem_cons] at hc
      rcases hc with rfl | hc
      · decide
      · exact isDig_ne_space (mem_pyStrNat_isDig (m + 1) c hc)
  simp [to_nop, afterFirstSpace_eq_none _ h]

/-! ## C4 -/

/-- C4: the reversible codecs round-trip.  The boolean codec encodes
true/false as "1"/"0" and decodes any token printing a non-zero integer as
true; the enumeration codec (`RateMode`) and the integer codec
(`to_int` against Python `str`) satisfy `decode(encode(v)) = v` for every
representable value. -/
theorem codec_round_trip :
    (∀ b : Bool, to_bool (from_bool b) = some b)
      ∧ from_bool true = ['1'] ∧ from_bool false = ['0']
      ∧ (∀ m : RateMode, RateMode.decode (RateMode.encode m) = some m)
      ∧ (∀ i : Int, to_int (pyStrInt i) = some i)
      ∧ (∀ i : Int, i ≠ 0 → to_bool (pyStrInt i) = some true) := by
  refine ⟨?_, rfl, rfl, ?_, ?_, ?_⟩
  · intro b; cases b <;> decide
  · intro m; cases m <;> decide
  · intro i; simp [to_int, to_nop_pyStrInt, pyInt_pyStrInt]
  · intro i hi
    simp only [to_bool, to_nop_pyStrInt, pyInt_pyStrInt, Option.map_some]
    simpa using bne_iff_ne.mpr hi

/-- Witness for C4: the non-zero hypothesis discharged at `i = 5`. -/
theorem codec_round_trip_witness :
    (5 : Int) ≠ 0 ∧ to_bool (pyStrInt 5) = some true :=
  ⟨by decide, codec_round_trip.2.2.2.2.2 5 (by decide)⟩

/-! ## C5 -/

theorem afterFirstSpace_append (l r : Str) (h : ∀ c ∈ l, c ≠ ' ') :
    afterFirstSpace (l ++ ' ' :: r) = some r := by
  induction l with
  | nil => simp [afterFirstSpace]
  | cons c rest ih =>
    simp only [List.cons_append, afterFirstSpace]
    rw [if_neg (h c (List.mem_cons_self c rest))]
    exact ih (fun d hd => h d (List.mem_cons_of_mem c hd))

theorem breakAtFirst_append (sep : Char) (l r : Str) (h : ∀ c ∈ l, c ≠ sep) :
    breakAtFirst sep (l ++ sep :: r) = some (l, r) := by
  induction l with
  | nil => simp [breakAtFirst]
  | cons c rest ih =>
    simp only [List.cons_append, breakAtFirst, List.append_eq]
    rw [if_neg (h c (List.mem_cons_self c rest)),
      ih (fun d hd => h d (List.mem_cons_of_mem c hd))]
    rfl

theorem mem_pyStrInt_cases (i : Int) (c : Char) (hc : c ∈ pyStrInt i) :
    c = '-' ∨ isDig c = true := by
  cases i with
  | ofNat n => exact Or.inr (mem_pyStrNat_isDig n c hc)
  | negSucc m =>
    simp only [pyStrInt, List.mem_cons] at hc
    rcases hc with rfl | hc
    · exact Or.inl rfl
    · exact Or.inr (mem_pyStrNat_isDig (m + 1) c hc)

theorem pyStrInt_no_comma (i : Int) : ∀ c ∈ pyStrInt i, c ≠ ',' := by
  intro c hc
  rcases mem_pyStrInt_cases i c hc with rfl | h
  · decide
  · exact isDig_ne_comma h

/-- The error codec on a well-formed `:SYST:ERR` reply fragment: it splits
the fragment into the integer code and the trailing message. -/
theorem to_error_splits (n : Int) (msg : Str) :
    to_errorV (strL ":SYST:ERR " ++ pyStrInt n ++ ',' :: msg)
      = some (.verr n msg) := by
  have hsp : strL ":SYST:ERR " ++ pyStrInt n ++ ',' :: msg
      = strL ":SYST:ERR" ++ ' ' :: (pyStrInt n ++ ',' :: msg) := by
    simp [strL, List.append_assoc]
  have hnop : to_nop (strL ":SYST:ERR " ++ pyStrInt n ++ ',' :: msg)
      = pyStrInt n ++ ',' :: msg := by
    rw [hsp]
    simp [to_nop,
      afterFirstSpace_append (strL ":SYST:ERR") (pyStrInt n ++ ',' :: msg)
        (by decide)]
  simp only [to_errorV, to_error, hnop,
    breakAtFirst_append ',' _ _ (pyStrInt_no_comma n), pyInt_pyStrInt]
  rfl

/-- C5: a write through a descriptor with an encode function but no decode
function renders `TEMPLATE value;:SYST:ERR?` — the system-error
acknowledgement query is appended — and binds the error codec (which splits
the reply fragment into an integer code and trailing message) as the decode
step. -/
theorem write_ack_protocol {β : Type} (cmd : Str) (enc : β → Str)
    (objId : Str) (v : β) :
    command cmd none (some enc) objId (some v)
        = .ok (upperStr (formatModule objId cmd) ++ ' ' :: enc v
            ++ ';' :: strL ":SYST:ERR?", to_errorV)
      ∧ ∀ (n : Int) (msg : Str),
          to_errorV (strL ":SYST:ERR " ++ pyStrInt n ++ ',' :: msg)
            = some (.verr n msg) := by
  refine ⟨?_, to_error_splits⟩
  have hq : strL ":SYST:ERR" ++ ['?'] = strL ":SYST:ERR?" := by decide
  simp only [command, hq, List.append_assoc, List.cons_append,
    List.nil_append]

/-! ## C6 -/

/-- Counterexample to C6: with transport `cacheConn`, a cacheable read of
`:FOO` caches `"old"` under the key `:FOO?`; a write of `"9"` stores its
confirmation under the compound key `:FOO 9;:FOO?` and leaves the `:FOO?`
entry untouched; the following read hits the stale entry and returns
`"old"`, the value cached before the write, without a third transport call
(the call counter stays at 2). -/
theorem cache_stale_counterexample :
    valOf cacheRun1 = some (some (.vstr (strL "old")))
      ∧ valOf cacheRun2 = some (some (.vstr (strL "9")))
      ∧ valOf cacheRun3 = some (some (.vstr (strL "old")))
      ∧ (paceOf cacheRun2).calls = 2
      ∧ (paceOf cacheRun3).calls = 2
      ∧ (some (Value.vstr (strL "old")) : Option Value)
          ≠ some (.vstr (strL "9")) := by
  exact ⟨by decide, by decide, by decide, by decide, by decide, by decide⟩

/-- `_query` never changes the cache: a successful immediate request only
bumps the transport counter, a batched one only extends the group. -/
theorem pace_query_cache {conn : Str → Option Str} {st : Pace} {cmd : Str}
    {f : Str → Option Value} {res : Option Value} {st1 : Pace}
    (h : pace_query conn st cmd f = .ok (res, st1)) :
    st1.cache = st.cache := by
  unfold pace_query at h
  split at h
  · simp only [Except.ok.injEq, Prod.mk.injEq] at h
    rw [← h.2]
  · simp only [pace_ask] at h
    split at h
    · split at h
      · simp only [Except.ok.injEq, Prod.mk.injEq] at h
        rw [← h.2]
      · exact absurd h (by simp)
    · exact absurd h (by simp)

/-- C6 as amended: a cacheable read that hits the cache returns the stored
value with no transport round trip and no state change at all; but a write
through the set path stores its confirmation only under the compound
write-request key and leaves every other cache key — in particular the
read-request key — bound exactly as before, so a read after such a write
still returns the value cached before the write (no invalidation exists). -/
theorem cache_read_write_semantics :
    (∀ {β : Type} (cmd : Str) (fg : Str → Option Value) (fs : Option (β → Str))
        (objId : Str) (conn : Str → Option Str) (st : Pace) (request : Str)
        (getter : Str → Option Value) (v : Value),
        command cmd (some fg) fs objId (none : Option β) = .ok (request, getter) →
        List.lookup request st.cache = some (some v) →
        get_set cmd (some fg) fs true objId conn st none = .ok (some v, st))
      ∧ (∀ {β : Type} (cmd : Str) (fg : Str → Option Value) (fs : β → Str)
          (cf : Bool) (objId : Str) (conn : Str → Option Str) (st : Pace)
          (v : β) (wreq : Str) (wgetter : Str → Option Value)
          (result : Option Value) (st1 : Pace) (rk : Str),
          command cmd (some fg) (some fs) objId (some v) = .ok (wreq, wgetter) →
          get_set cmd (some fg) (some fs) cf objId conn st (some v)
              = .ok (result, st1) →
          rk ≠ wreq →
          List.lookup rk st1.cache = List.lookup rk st.cache) := by
  constructor
  · intro β cmd fg fs objId conn st request getter v hcmd hlook
    unfold get_set
    rw [hcmd]
    simp [hlook]
  · intro β cmd fg fs cf objId conn st v wreq wgetter result st1 rk hcmd hrun hne
    unfold get_set at hrun
    rw [hcmd] at hrun
    split at hrun
    · next heq => exact absurd heq (by simp)
    · next request0 getter0 heq =>
      injection heq with hpair
      cases hpair
      split at hrun
      · exact absurd hrun (by simp)
      · next res0 stq hq =>
        have hcache : stq.cache = st.cache := pace_query_cache hq
        simp only [Option.isNone_some, Bool.false_and, Bool.false_or,
          Bool.false_eq_true, if_false] at hrun
        by_cases hcf : cf = true
        · rw [if_pos hcf] at hrun
          simp only [Except.ok.injEq, Prod.mk.injEq] at hrun
          rw [← hrun.2, List.lookup_cons]
          simp only [beq_eq_false_iff_ne.mpr hne]
          rw [hcache]
        · rw [if_neg hcf] at hrun
          simp only [Except.ok.injEq, Prod.mk.injEq] at hrun
          rw [← hrun.2, hcache]

/-- Witness for C6 as amended: the cache-hit branch at a warm state, and the
write-path cache preservation across the concrete write of the stale-cache
scenario. -/
theorem cache_read_write_semantics_witness :
    command (strL ":FOO") (some to_nopV) (none : Option (Str → Str))
        (strL "1") none = .ok (strL ":FOO?", to_nopV)
      ∧ List.lookup (strL ":FOO?") warmPace.cache
          = some (some (Value.vstr (strL "old")))
      ∧ get_set (strL ":FOO") (some to_nopV) (none : Option (Str → Str)) true
          (strL "1") (fun _ => none) warmPace none
          = .ok (some (.vstr (strL "old")), warmPace)
      ∧ List.lookup (strL ":FOO?") (paceOf cacheRun2).cache
          = List.lookup (strL ":FOO?") (paceOf cacheRun1).cache :=
  ⟨rfl, by decide,
    cache_read_write_semantics.1 _ _ _ _ _ _ _ _ _ rfl (by decide),
    cache_read_write_semantics.2 (strL ":FOO") to_nopV from_nop true (strL "1")
      cacheConn (paceOf cacheRun1) (strL "9") (strL ":FOO 9;:FOO?") to_nopV
      (some (.vstr (strL "9"))) (paceOf cacheRun2) (strL ":FOO?")
      rfl rfl (by decide)⟩

/-! ## C7 -/

/-- Counterexample to C7: a transport reply of literal `NACK` is not
surfaced as a failure — `_query` hands it to the decode function like any
other reply, and the default mnemonic-stripping codec returns it as an
ordinary decoded string value. -/
theorem nack_decoded_counterexample :
    pace_query (fun _ => some (strL "NACK\n")) paceInit (strL "*IDN?") to_nopV
      = .ok (some (.vstr nackText), ⟨none, [], 1⟩) := rfl

/-- C7 as amended: the `NACK` constant is defined but never consulted by the
engine; a reply of literal `NACK` is passed to the decode function exactly
like any other reply text, so a codec that accepts arbitrary text (the
default `to_nop`) returns it as an ordinary value — no distinct NACK
failure path exists. -/
theorem nack_not_special (st : Pace) (cmd : Str) (hg : st.group = none)
    (hq : cmd.contains '?' = true) :
    pace_query (fun _ => some (strL "NACK\n")) st cmd to_nopV
      = .ok (some (.vstr nackText), { st with calls := st.calls + 1 }) := by
  have hstrip : strip (strL "NACK\n") = nackText := by decide
  have hnop : to_nopV nackText = some (.vstr nackText) := by decide
  unfold pace_query pace_ask
  rw [hg, hq]
  simp [hstrip, hnop]

/-- Witness for C7 as amended, at a concrete idle device state. -/
theorem nack_not_special_witness :
    (Pace.group ⟨none, [], 5⟩ = none)
      ∧ ((strL ":SENS1:PRES?").contains '?' = true)
      ∧ pace_query (fun _ => some (strL "NACK\n")) ⟨none, [], 5⟩
          (strL ":SENS1:PRES?") to_nopV
          = .ok (some (.vstr nackText), ⟨none, [], 6⟩) :=
  ⟨rfl, by decide, nack_not_special ⟨none, [], 5⟩ _ rfl (by decide)⟩

/-! ## C8 -/

/-- C8: invoking a read-only descriptor (no encode function) with a value
fails with the not-writable error, and invoking a write-only descriptor (no
decode function) with no value fails with the not-readable error; in both
cases the result is an error that depends on neither the transport nor the
device state, so no request text reaches the transport. -/
theorem descriptor_capability_errors :
    (∀ {β : Type} (cmd objId : Str) (enc : β → Str) (cf : Bool)
        (conn : Str → Option Str) (st : Pace),
        get_set cmd none (some enc) cf objId conn st (none : Option β)
          = .error (.notReadable (upperStr (formatModule objId cmd))))
      ∧ (∀ {β : Type} (cmd objId : Str) (fg : Str → Option Value) (cf : Bool)
          (conn : Str → Option Str) (st : Pace) (v : β),
          get_set cmd (some fg) (none : Option (β → Str)) cf objId conn st (some v)
            = .error (.notWritable (upperStr (formatModule objId cmd)))) :=
  ⟨fun _ _ _ _ _ _ => rfl, fun _ _ _ _ _ _ _ => rfl⟩

/-! ## C9 -/

/-- Counterexample to C9: entering a batching scope while one is already
open (here holding one pending request) raises nothing — `__enter__` is
total — and silently installs a fresh empty batch, discarding the pending
request of the previous one. -/
theorem batch_scope_counterexample :
    pace_enter busyPace
        = ({ busyPace with group := some (Group.start (Option Value)) },
            Group.start (Option Value))
      ∧ (Group.start (Option Value)).cmds = [[]]
      ∧ (Group.append (Group.start (Option Value)) (strL "*IDN?") to_nopV).cmds
          = [strL "*IDN?"]
      ∧ [strL "*IDN?"] ≠ [([] : Str)] :=
  ⟨rfl, rfl, by decide, by decide⟩

/-- C9 as amended: opening a batching scope always succeeds and always
replaces the device's group with a fresh empty batch — also when a batch is
already active, whose already-appended requests are thereby discarded
without being issued; no `BatchAlreadyOpenError` exists in the code. -/
theorem batch_scope_replaces (st : Pace) :
    pace_enter st
      = ({ st with group := some (Group.start (Option Value)) },
          Group.start (Option Value)) := rfl

/-! ## C10 -/

/-- Counterexample to C10: under an open batch, a cacheable read whose value
is already cached returns the cached value (not `None`) and appends nothing
to the batch — the state, including the open group, is returned unchanged. -/
theorem batch_bypass_counterexample :
    warmBatchPace.group = some (Group.start (Option Value))
      ∧ get_set (strL "*IDN") (some to_nopV) (none : Option (Str → Str)) true
          (strL "1") (fun _ => none) warmBatchPace none
          = .ok (some (.vstr (strL "X")), warmBatchPace)
      ∧ (some (Value.vstr (strL "X")) : Option Value) ≠ none :=
  ⟨rfl, rfl, by decide⟩

/-- C10 as amended: while a batch is open, every descriptor invocation that
does not hit the result cache returns `None` and performs no transport I/O
(the call counter is unchanged): it only appends the rendered request text
and its decode function to the open batch (reads and cacheable writes also
store an inert `None` cache entry, which later lookups treat as a miss). -/
theorem batch_append_semantics {β : Type} (cmd : Str)
    (fget : Option (Str → Option Value)) (fset : Option (β → Str)) (cf : Bool)
    (objId : Str) (conn : Str → Option Str) (st : Pace)
    (g : Group (Option Value)) (value : Option β) (request : Str)
    (getter : Str → Option Value)
    (hg : st.group = some g)
    (hcmd : command cmd fget fset objId value = .ok (request, getter))
    (hmiss : value.isNone = true → cf = true →
      List.lookup request st.cache = none
        ∨ List.lookup request st.cache = some none) :
    get_set cmd fget fset cf objId conn st value
      = .ok (none,
          if value.isNone || cf
          then ⟨some (g.append request getter),
                 (request, (none : Option Value)) :: st.cache, st.calls⟩
          else ⟨some (g.append request getter), st.cache, st.calls⟩) := by
  cases value with
  | some v =>
    unfold get_set pace_query
    rw [hcmd, hg]
    rfl
  | none =>
    unfold get_set pace_query
    rw [hcmd, hg]
    by_cases hcf : cf = true
    · rcases hmiss rfl hcf with hm | hm <;> simp only [hcf, hm] <;> rfl
    · rw [Bool.not_eq_true] at hcf
      rw [hcf]
      rfl

/-- Witness for C10 as amended: a non-cacheable read appended to an open
empty batch. -/
theorem batch_append_semantics_witness :
    (Pace.group ⟨some (Group.start (Option Value)), [], 2⟩
        = some (Group.start (Option Value)))
      ∧ command (strL "*TST") (some to_boolV) (none : Option (Str → Str))
          (strL "1") none = .ok (strL "*TST?", to_boolV)
      ∧ get_set (strL "*TST") (some to_boolV) (none : Option (Str → Str)) false
          (strL "1") (fun _ => none) ⟨some (Group.start (Option Value)), [], 2⟩ none
          = .ok (none,
              ⟨some ((Group.start (Option Value)).append (strL "*TST?") to_boolV),
                [(strL "*TST?", (none : Option Value))], 2⟩) :=
  ⟨rfl, rfl,
    batch_append_semantics (strL "*TST") (some to_boolV) none false (strL "1")
      (fun _ => none) ⟨some (Group.start (Option Value)), [], 2⟩
      (Group.start (Option Value)) none (strL "*TST?") to_boolV rfl rfl
      (fun _ h => absurd h (by decide))⟩

end Gepace
